import Mathlib

/-!
Verification development for the gamertag-resolution engine of
RealmsPlayerlistBot (src/common/playerlist_utils.py).

The Python source is shallowly embedded as executable Lean definitions:

* `fillSessions` models `fill_in_gamertags_for_sessions` (the cache-first
  entry point), with Python dict semantics made explicit through
  `dictUpsert` / `sessionDictOf` (insertion-ordered, last-write-wins
  association lists).
* `GamertagHandler` is modelled by `classifyBulkError` (the error taxonomy of
  `get_gamertags`), `getGamertagsModel` (the prune-and-retry bulk attempt),
  `backupRun` (`backup_get_gamertags` under the 15-second budget, abstracted
  to a count of completed per-item attempts, with caught soft failures
  distinguished from uncaught hard failures), `runStep` / `runLoopFuel`
  (the `run` loop), and `processResponses` / `handleNewGamertag`
  (response post-processing and cache write-back staging).

External collaborators (the Redis cache, the Xbox APIs, the audit sink) are
parameters: the cache is a function `String → Option String`, the bulk
provider an oracle `List String → BulkCallResult`, and so on.  Exceptions
are modelled as explicit tagged outcomes; the semaphore is modelled by an
acquire/release event trace.
-/

/-- Modelled from the spec: a `SessionRecord` carries an identifier and
mutable display-name / device-hint fields (`models.PlayerSession` is not part
of the sources under verification; only the three fields touched by
`fill_in_gamertags_for_sessions` are modelled). -/
structure PlayerSession where
  xuid : String
  gamertag : Option String
  device : Option String
deriving DecidableEq

/-- `GamertagInfo` from playerlist_utils: a resolved gamertag with an
optional device hint. -/
structure GamertagInfo where
  gamertag : String
  device : Option String
deriving DecidableEq

/-- Python dict assignment `d[k] = v`: replaces the value at an existing key
(keeping its position) or appends a fresh key at the end. -/
def dictUpsert (d : List (String × α)) (k : String) (v : α) : List (String × α) :=
  if d.any (fun p => p.1 == k) then
    d.map (fun p => if p.1 == k then (p.1, v) else p)
  else d ++ [(k, v)]

/-- `session_dict = {session.xuid: session for session in player_sessions}`:
an insertion-ordered map keyed by xuid; duplicate xuids collapse, keeping the
last record at the position of the first occurrence. -/
def sessionDictOf (sessions : List PlayerSession) : List (String × PlayerSession) :=
  sessions.foldl (fun d s => dictUpsert d s.xuid s) []

/-- The guaranteed-missing cache key used to keep pipeline positions aligned
for bypassed identifiers. -/
def SENTINEL : String := "PURPOSELY_INVALID_KEY_AAAAAAAAAAAAAAAA"

/-- The key requested from the cache for one session record: its xuid, or the
sentinel when the xuid is in `bypass_cache_for`. -/
def sessionKey (bypass_cache_for : List String) (s : PlayerSession) : String :=
  if s.xuid ∈ bypass_cache_for then SENTINEL else s.xuid

/-- The ordered key sequence staged on the Redis pipeline (one `get` per input
record, in input order). -/
def cacheRequests (sessions : List PlayerSession) (bypass_cache_for : List String) :
    List String :=
  sessions.map (sessionKey bypass_cache_for)

/-- `gamertag_list = await pipeline.execute()`: the positional results of the
batched multi-get. -/
def gamertagList (cache : String → Option String) (sessions : List PlayerSession)
    (bypass_cache_for : List String) : List (Option String) :=
  (cacheRequests sessions bypass_cache_for).map cache

/-- Python truthiness of the fetched value (`if not gamertag`): `None` and the
empty string are falsy. -/
def truthy : Option String → Bool
  | none => false
  | some s => s != ""

/-- The read-back loop over `enumerate(session_dict.keys())`: writes the
positional result into each dict entry and collects the keys whose value is
falsy into the unresolved list.  The enumeration index is modelled by slicing
the result list in lockstep (`headD none` stands for `gamertag_list[index]`;
callers always have at least as many results as dict entries). -/
def applyCacheResults :
    List (String × PlayerSession) → List (Option String) →
      List (String × PlayerSession) × List String
  | [], _ => ([], [])
  | (k, s) :: rest, gl =>
    let g := gl.headD none
    let r := applyCacheResults rest gl.tail
    ((k, { s with gamertag := g }) :: r.1, if truthy g then r.2 else k :: r.2)

/-- The merge loop over `gamertag_handler.run()`'s result: each resolved pair
is written into the keyed map.  A key absent from the map would raise
`KeyError` in Python; this is modelled by returning `none`. -/
def mergeResolved (d : List (String × PlayerSession)) :
    List (String × GamertagInfo) → Option (List (String × PlayerSession))
  | [] => some d
  | (x, gi) :: rest =>
    if d.any (fun p => p.1 == x) then
      mergeResolved
        (d.map (fun p =>
          if p.1 == x then
            (p.1, { p.2 with gamertag := some gi.gamertag, device := gi.device })
          else p))
        rest
    else none

/-- `fill_in_gamertags_for_sessions`.  The resolution coordinator
(`GamertagHandler.run`) is abstracted as `resolver`, mapping the unresolved
identifier list to the resolved dictionary; the cache is a pure lookup
function.  Returns `none` exactly when Python would raise `KeyError` during
the merge. -/
def fillSessions (cache : String → Option String)
    (resolver : List String → List (String × GamertagInfo))
    (sessions : List PlayerSession) (bypass_cache : Bool)
    (bypass_cache_for : List String) : Option (List PlayerSession) :=
  let d := sessionDictOf sessions
  let r :=
    if !bypass_cache then
      applyCacheResults d (gamertagList cache sessions bypass_cache_for)
    else
      (d, d.map (fun p => p.1))
  if r.2.isEmpty then some (r.1.map (fun p => p.2))
  else (mergeResolved r.1 (resolver r.2)).map (fun d2 => d2.map (fun p => p.2))

/-! ## Xbox API data shapes

Modelled from the spec: the bulk provider returns profile entries with an
identifier, a display name and an optional ordered list of presence entries
(title id, primary flag, free-text descriptor, device); the fallback provider
returns a single profile whose settings carry the display name
(`common.xbox_api` is not among the sources under verification, so the shapes
carry exactly the fields `playerlist_utils.py` reads). -/

structure PresenceDetail where
  title_id : String
  is_primary : Bool
  presence_text : String
  device : String
deriving DecidableEq

structure Person where
  xuid : String
  gamertag : String
  presence_details : List PresenceDetail
deriving DecidableEq

structure PeopleHubResponse where
  people : List Person
deriving DecidableEq

structure XSetting where
  id : String
  value : String
deriving DecidableEq

structure ProfileUser where
  id : String
  settings : List XSetting
deriving DecidableEq

structure ProfileResponse where
  profile_users : List ProfileUser
deriving DecidableEq

/-- The two response shapes accumulated by the handler. -/
inductive XResponse
  | peopleHub (r : PeopleHubResponse)
  | profile (r : ProfileResponse)
deriving DecidableEq

/-! ## Bulk-call error taxonomy (`GamertagHandler.get_gamertags`) -/

/-- Python exception kinds that escape `run` uncaught (aborting the call). -/
inductive PyError
  | keyError | indexError | valueError | jsonError | transportError | auditError
deriving DecidableEq

/-- The JSON body of a `MicrosoftAPIException` response, as inspected by
`get_gamertags`: presence of a truthy `code`, the `description` text (absent
means `people_json["description"]` raises `KeyError`), and presence of a
truthy `limitType`. -/
structure ErrBody where
  hasCode : Bool
  description : Option String
  hasLimitType : Bool
deriving DecidableEq

/-- Failure modes of one `fetch_people_batch` call. -/
inductive BulkErrorResponse
  | apiException (body : ErrBody)
  | bodyParseError
  | transportError
deriving DecidableEq

/-- Result of one bulk-provider call, as seen by `get_gamertags`:
a parsed `PeopleHubResponse`, a `ValidationError` from
`PeopleHubResponse.from_bytes` on an otherwise-successful fetch, or an
error response. -/
inductive BulkCallResult
  | ok (r : PeopleHubResponse)
  | parseFail
  | exn (e : BulkErrorResponse)
deriving DecidableEq

/-- `description.startswith("Throttled")`, computed over the character data
(so that it evaluates inside the kernel). -/
def strStartsWith (s p : String) : Bool := p.data.isPrefixOf s.data

/-- `s.split(" ")` over the character data: split on every single space,
keeping empty segments, exactly like Python `str.split(" ")`. -/
def splitSpaceAux (cur : List Char) : List Char → List (List Char)
  | [] => [cur.reverse]
  | c :: rest =>
    if c = ' ' then cur.reverse :: splitSpaceAux [] rest
    else splitSpaceAux (c :: cur) rest

/-- `description.split(" ")[1]`: the second space-separated token; absent
means Python raises `IndexError`. -/
def secondWord (s : String) : Option String :=
  match splitSpaceAux [] s.data with
  | _ :: w :: _ => some (String.mk w)
  | _ => none

/-- How `get_gamertags` reacts to one bulk-provider error, relative to the
current window `w` (needed because `xuid_list.remove` raises `ValueError`
when the named identifier is not in the list). -/
inductive BulkClassification
  | cooldown
  | pruneRetry (x : String)
  | reraise
  | fatal (e : PyError)
deriving DecidableEq

/-- The error-handling branch of `get_gamertags` (lines 99-119): a coded
response starting with "Throttled" raises `GamertagOnCooldown`; any other
coded response is treated as naming an invalid xuid, whose second
description token is removed from the window before retrying; a
`limitType` response raises `GamertagOnCooldown`; any other API exception is
re-raised; body-parse and transport failures propagate uncaught. -/
def classifyBulkError (w : List String) : BulkErrorResponse → BulkClassification
  | .apiException b =>
    if b.hasCode then
      match b.description with
      | none => .fatal .keyError
      | some d =>
        if strStartsWith d "Throttled" then .cooldown
        else
          match secondWord d with
          | none => .fatal .indexError
          | some bad => if bad ∈ w then .pruneRetry bad else .fatal .valueError
    else if b.hasLimitType then .cooldown
    else .reraise
  | .bodyParseError => .fatal .jsonError
  | .transportError => .fatal .transportError

/-- The exceptions `run` catches around `get_gamertags`
(`GamertagOnCooldown`, `ValidationError`, `MicrosoftAPIException`),
all of which trigger the fallback phase. -/
inductive RecoverableKind
  | cooldown | validationError | msApiReraise
deriving DecidableEq

/-- Outcome of one full bulk attempt (with invalid-id prune retries). -/
inductive AttemptResult
  | success (r : PeopleHubResponse)
  | recoverable (k : RecoverableKind)
  | fatal (e : PyError)
deriving DecidableEq

/-- `get_gamertags` as a function of the bulk-provider oracle: on an invalid
identifier the window shrinks by one occurrence (`xuid_list.remove`) and the
call retries itself (lines 110-113); every other outcome is final.  The
recursion is bounded: each retry strictly shrinks the window. -/
def getGamertagsModel (bulk : List String → BulkCallResult) (w : List String) :
    AttemptResult :=
  match bulk w with
  | .ok r => .success r
  | .parseFail => .recoverable .validationError
  | .exn e =>
    match h : classifyBulkError w e with
    | .cooldown => .recoverable .cooldown
    | .reraise => .recoverable .msApiReraise
    | .fatal pe => .fatal pe
    | .pruneRetry bad => getGamertagsModel bulk (w.erase bad)
termination_by w.length
decreasing_by
  have hm : bad ∈ w := by
    cases e with
    | apiException b =>
      simp only [classifyBulkError] at h
      split at h
      · split at h
        · simp at h
        · split at h
          · simp at h
          · split at h
            · simp at h
            · split at h
              · cases h; assumption
              · simp at h
      · split at h <;> simp at h
    | bodyParseError => simp [classifyBulkError] at h
    | transportError => simp [classifyBulkError] at h
  have h1 := List.length_erase_of_mem hm
  have h2 : 0 < w.length := List.length_pos.mpr (by rintro rfl; cases hm)
  omega

/-- Fuel-indexed variant of `getGamertagsModel`, counting bulk attempts:
`none` means the attempt did not finish within `fuel` calls. -/
def getGamertagsFuel (bulk : List String → BulkCallResult) :
    Nat → List String → Option AttemptResult
  | 0, _ => none
  | f + 1, w =>
    match bulk w with
    | .ok r => some (.success r)
    | .parseFail => some (.recoverable .validationError)
    | .exn e =>
      match classifyBulkError w e with
      | .cooldown => some (.recoverable .cooldown)
      | .reraise => some (.recoverable .msApiReraise)
      | .fatal pe => some (.fatal pe)
      | .pruneRetry bad => getGamertagsFuel bulk f (w.erase bad)

/-! ## The resolution loop (`GamertagHandler.run`) -/

/-- Batch size constant `AMOUNT_TO_GET`. -/
def AMOUNT_TO_GET : Nat := 500

/-- The mutable handler fields the loop touches: the identifier tuple, the
cursor `index`, and the accumulated responses. -/
structure HandlerState where
  xuids : List String
  index : Nat
  responses : List XResponse
deriving DecidableEq

/-- `__attrs_post_init__`: empty identifiers are filtered out up front. -/
def mkHandlerState (xuids : List String) : HandlerState :=
  ⟨xuids.filter (fun x => x != ""), 0, []⟩

/-- The window `self.xuids_to_get[self.index : self.index + AMOUNT_TO_GET]`. -/
def windowOf (st : HandlerState) : List String :=
  (st.xuids.drop st.index).take AMOUNT_TO_GET

/-- Semaphore events of one loop iteration (`async with self.sem`). -/
inductive SemEvent
  | acquire | release
deriving DecidableEq

/-- Outcome of one per-item fallback attempt (`backup_get_gamertags`,
lines 132-154).  `ok` is a parsed profile; `soft` is one of the caught
exceptions (`aiohttp.ContentTypeError`, `aiohttp.ClientResponseError`,
`ValidationError` — logged and skipped); `hard` is any other exception from
the attempt (e.g. a connection-level transport error raised by the GET
itself, or a failure inside the handler), which is caught nowhere and
propagates out of the phase and out of `run`. -/
inductive FallbackResult
  | ok (r : ProfileResponse)
  | soft
  | hard (e : PyError)
deriving DecidableEq

/-- The response appended for one fallback attempt (successes only). -/
def fallbackResp : FallbackResult → Option XResponse
  | .ok r => some (.profile r)
  | _ => none

/-- The environment of one loop iteration: the bulk-provider oracle, the
per-item fallback provider, and the number of per-item attempts that
complete before the 15-second `asyncio.wait_for` budget elapses (real time
is abstracted to this count). -/
structure StepEnv where
  bulk : List String → BulkCallResult
  fallback : String → FallbackResult
  budget : Nat

/-- `backup_get_gamertags` under its time budget: starting at the cursor,
attempt one identifier at a time; a success appends a `ProfileResponse`, a
caught soft failure appends nothing; in both cases the cursor advances by
one after the attempt (`self.index += 1`), until the identifiers or the
budget run out.  An uncaught (`hard`) exception escapes before the cursor
advance for that attempt and aborts the whole phase. -/
def backupRun (fb : String → FallbackResult) :
    Nat → HandlerState → Except PyError HandlerState
  | 0, st => .ok st
  | b + 1, st =>
    match st.xuids.drop st.index with
    | [] => .ok st
    | x :: _ =>
      match fb x with
      | .hard e => .error e
      | .ok r =>
        backupRun fb b
          { st with responses := st.responses ++ [.profile r],
                    index := st.index + 1 }
      | .soft => backupRun fb b { st with index := st.index + 1 }

/-- One iteration of the `while self.index < len(self.xuids_to_get)` loop
body: under the semaphore, attempt the bulk call for the current window; on
success append the response and advance the cursor by `AMOUNT_TO_GET`; on a
caught exception (`GamertagOnCooldown`, `ValidationError`,
`MicrosoftAPIException`) run the fallback phase inside
`asyncio.wait_for(..., timeout=15)` with its `TimeoutError` suppressed; any
other exception — from the bulk attempt or escaping a fallback attempt —
propagates.  The second component is the semaphore event trace of the
iteration (`async with` releases on every exit path). -/
def runStep (env : StepEnv) (st : HandlerState) :
    Except PyError HandlerState × List SemEvent :=
  match getGamertagsModel env.bulk (windowOf st) with
  | .success r =>
    (.ok { st with responses := st.responses ++ [.peopleHub r],
                   index := st.index + AMOUNT_TO_GET },
     [.acquire, .release])
  | .recoverable _ => (backupRun env.fallback env.budget st, [.acquire, .release])
  | .fatal e => (.error e, [.acquire, .release])

/-- The main loop, with fuel bounding the number of iterations (`none` =
fuel exhausted; the Python loop can run unboundedly when no progress is
made).  `i` numbers the iterations so the environment may change over time. -/
def runLoopFuel (env : Nat → StepEnv) : Nat → Nat → HandlerState →
    Option (Except PyError HandlerState)
  | _, 0, _ => none
  | i, f + 1, st =>
    if st.index < st.xuids.length then
      match (runStep (env i) st).1 with
      | .ok st' => runLoopFuel env (i + 1) f st'
      | .error e => some (.error e)
    else some (.ok st)

/-! ## Response post-processing and cache write-back (lines 195-266) -/

/-- Modelled from the spec: the fixed TTL constant `utils.EXPIRE_GAMERTAGS_AT`
shared by the forward and reverse cache keys (`common.utils` is not among the
sources under verification; the concrete value is immaterial, only that both
`setex` calls pass the same constant). -/
def EXPIRE_GAMERTAGS_AT : Nat := 86400

/-- One staged `pipe.setex(name, time, value)` operation. -/
structure CacheOp where
  name : String
  time : Nat
  value : String
deriving DecidableEq

/-- `_handle_new_gamertag`: records the pair and stages the forward
(`xuid -> gamertag`) and reverse (`"rpl-"+gamertag -> xuid`) writes, both
with the fixed TTL, unless the xuid or the gamertag is empty, in which case
nothing happens. -/
def handleNewGamertag (pipe : List CacheOp) (xuid gamertag : String)
    (dict : List (String × GamertagInfo)) (device : Option String) :
    List CacheOp × List (String × GamertagInfo) :=
  if xuid = "" ∨ gamertag = "" then (pipe, dict)
  else
    (pipe ++ [⟨xuid, EXPIRE_GAMERTAGS_AT, gamertag⟩,
              ⟨"rpl-" ++ gamertag, EXPIRE_GAMERTAGS_AT, xuid⟩],
     dictUpsert dict xuid ⟨gamertag, device⟩)

/-- The fixed allow-list `MINECRAFT_TITLE_IDS`. -/
def MINECRAFT_TITLE_IDS : List String :=
  ["1828326430", "2047319603", "2044456598", "896928775",
   "1739947436", "1810924247", "1944307183"]

/-- Allow-list qualification: title id in `MINECRAFT_TITLE_IDS` and marked
primary. -/
def allowQual (p : PresenceDetail) : Bool :=
  decide (p.title_id ∈ MINECRAFT_TITLE_IDS) && p.is_primary

/-- Case-insensitive substring heuristic
`"minecraft for" in p.presence_text.lower()`. -/
def hasMinecraftFor (s : String) : Bool :=
  decide ("minecraft for".data <:+: s.data.map Char.toLower)

/-- Heuristic qualification: descriptor matches the substring heuristic and
the entry is marked primary. -/
def heurQual (p : PresenceDetail) : Bool :=
  hasMinecraftFor p.presence_text && p.is_primary

/-- Device-hint selection for one person (lines 202-227): only for xuids in
`gather_devices_for` with a nonempty presence list; first allow-list primary
match, else first heuristic primary match (flagged `true` = heuristic path,
which additionally emits the audit notification); else no hint. -/
def deviceMatch (gatherFor : List String) (u : Person) :
    Option (PresenceDetail × Bool) :=
  if u.xuid ∈ gatherFor ∧ u.presence_details ≠ [] then
    match u.presence_details.find? allowQual with
    | some p => some (p, false)
    | none => (u.presence_details.find? heurQual).map (fun p => (p, true))
  else none

/-- Accumulator of the response-processing loop: the resolved mapping, the
staged pipeline, and the audit notifications sent so far. -/
structure FinishOut where
  dict : List (String × GamertagInfo)
  pipe : List CacheOp
  audits : List (String × String)
deriving DecidableEq

/-- Processing of one `PeopleHubResponse`: per person, pick the device hint,
emit the audit notification on a heuristic match (`audit` returns `false`
when `utils.msg_to_owner` raises, aborting the whole block), then record the
pair via `_handle_new_gamertag`. -/
def processPeople (audit : String → String → Bool) (gatherFor : List String) :
    List Person → FinishOut → Except PyError FinishOut
  | [], acc => .ok acc
  | u :: rest, acc =>
    match deviceMatch gatherFor u with
    | some (p, true) =>
      if audit p.title_id p.presence_text then
        let r := handleNewGamertag acc.pipe u.xuid u.gamertag acc.dict (some p.device)
        processPeople audit gatherFor rest
          ⟨r.2, r.1, acc.audits ++ [(p.title_id, p.presence_text)]⟩
      else .error .auditError
    | some (p, false) =>
      let r := handleNewGamertag acc.pipe u.xuid u.gamertag acc.dict (some p.device)
      processPeople audit gatherFor rest ⟨r.2, r.1, acc.audits⟩
    | none =>
      let r := handleNewGamertag acc.pipe u.xuid u.gamertag acc.dict none
      processPeople audit gatherFor rest ⟨r.2, r.1, acc.audits⟩

/-- Processing of one `ProfileResponse` (lines 244-258): extract the
"Gamertag" setting (skip the user if absent, the `StopIteration` branch) and
record the pair with no device hint. -/
def processProfiles : List ProfileUser → FinishOut → FinishOut
  | [], acc => acc
  | u :: rest, acc =>
    match u.settings.find? (fun s => s.id == "Gamertag") with
    | none => processProfiles rest acc
    | some s =>
      let r := handleNewGamertag acc.pipe u.id s.value acc.dict none
      processProfiles rest ⟨r.2, r.1, acc.audits⟩

/-- The `for response in self.responses` loop. -/
def processResponses (audit : String → String → Bool) (gatherFor : List String) :
    List XResponse → FinishOut → Except PyError FinishOut
  | [], acc => .ok acc
  | .peopleHub r :: rest, acc =>
    match processPeople audit gatherFor r.people acc with
    | .error e => .error e
    | .ok acc' => processResponses audit gatherFor rest acc'
  | .profile r :: rest, acc =>
    processResponses audit gatherFor rest (processProfiles r.profile_users acc)

/-- The (xuid, gamertag, device) triples actually recorded while processing
the responses, in processing order (the pairs surviving the non-empty
checks of `_handle_new_gamertag`). -/
def stagedPairsPeople (gatherFor : List String) : List Person →
    List (String × GamertagInfo)
  | [] => []
  | u :: rest =>
    (if u.xuid = "" ∨ u.gamertag = "" then []
     else [(u.xuid, ⟨u.gamertag, (deviceMatch gatherFor u).map (fun q => q.1.device)⟩)])
      ++ stagedPairsPeople gatherFor rest

/-- Pairs recorded from one `ProfileResponse`. -/
def stagedPairsProfiles : List ProfileUser → List (String × GamertagInfo)
  | [] => []
  | u :: rest =>
    (match u.settings.find? (fun s => s.id == "Gamertag") with
     | none => []
     | some s =>
       if u.id = "" ∨ s.value = "" then [] else [(u.id, ⟨s.value, none⟩)])
      ++ stagedPairsProfiles rest

/-- All pairs recorded across the accumulated responses. -/
def stagedPairs (gatherFor : List String) : List XResponse →
    List (String × GamertagInfo)
  | [] => []
  | .peopleHub r :: rest => stagedPairsPeople gatherFor r.people ++ stagedPairs gatherFor rest
  | .profile r :: rest => stagedPairsProfiles r.profile_users ++ stagedPairs gatherFor rest

/-- The forward and reverse cache writes staged for one recorded pair. -/
def pairOps (q : String × GamertagInfo) : List CacheOp :=
  [⟨q.1, EXPIRE_GAMERTAGS_AT, q.2.gamertag⟩,
   ⟨"rpl-" ++ q.2.gamertag, EXPIRE_GAMERTAGS_AT, q.1⟩]

/-- Outcome of one full `run` call: the value returned (or the error
propagated), the pipeline handed to the detached background task
(`self.bot.create_task(self._execute_pipeline(pipe))`; empty when the
pipeline was reset instead), and the audit notifications emitted. -/
structure RunOutcome where
  result : Except PyError (List (String × GamertagInfo))
  dispatched : List CacheOp
  audits : List (String × String)

/-- `GamertagHandler.run`: the main loop, then response processing; on a
processing error the pipeline is reset (nothing dispatched) and the error
propagates; on success the staged pipeline is dispatched as a detached
background task and the mapping is returned without awaiting it. -/
def runModel (env : Nat → StepEnv) (audit : String → String → Bool)
    (gatherFor : List String) (fuel : Nat) (st : HandlerState) :
    Option RunOutcome :=
  match runLoopFuel env 0 fuel st with
  | none => none
  | some (.error e) => some ⟨.error e, [], []⟩
  | some (.ok st') =>
    match processResponses audit gatherFor st'.responses ⟨[], [], []⟩ with
    | .error e => some ⟨.error e, [], []⟩
    | .ok out => some ⟨.ok out.dict, out.pipe, out.audits⟩

/-- The key sequence of an association list (Python `dict.keys()`). -/
def keysOf (d : List (String × α)) : List String := d.map (fun p => p.1)

/-- Each dict entry's value carries the key as its xuid. -/
def KeyInv (d : List (String × PlayerSession)) : Prop :=
  ∀ p ∈ d, p.2.xuid = p.1

/-! ## Association-list key structure -/

theorem classify_prune_mem {w : List String} {e : BulkErrorResponse} {x : String}
    (h : classifyBulkError w e = .pruneRetry x) : x ∈ w := by
  cases e with
  | apiException b =>
    simp only [classifyBulkError] at h
    split at h
    · split at h
      · simp at h
      · split at h
        · simp at h
        · split at h
          · simp at h
          · split at h
            · cases h; assumption
            · simp at h
    · split at h <;> simp at h
  | bodyParseError => simp [classifyBulkError] at h
  | transportError => simp [classifyBulkError] at h


theorem any_key_eq_mem (d : List (String × α)) (k : String) :
    d.any (fun p => p.1 == k) = true ↔ k ∈ keysOf d := by
  rw [List.any_eq_true]
  constructor
  · rintro ⟨p, hp, hpk⟩
    exact List.mem_map.mpr ⟨p, hp, beq_iff_eq.mp hpk⟩
  · intro hk
    obtain ⟨p, hp, hpk⟩ := List.mem_map.mp hk
    exact ⟨p, hp, beq_iff_eq.mpr hpk⟩

theorem keysOf_dictUpsert (d : List (String × α)) (k : String) (v : α) :
    keysOf (dictUpsert d k v) =
      if k ∈ keysOf d then keysOf d else keysOf d ++ [k] := by
  unfold dictUpsert
  by_cases h : k ∈ keysOf d
  · rw [if_pos ((any_key_eq_mem d k).mpr h), if_pos h]
    simp only [keysOf, List.map_map]
    apply List.map_congr_left
    intro p _
    by_cases hp : p.1 = k <;> simp [hp]
  · rw [if_neg (fun hc => h ((any_key_eq_mem d k).mp hc)), if_neg h]
    simp [keysOf]

theorem mem_keysOf_dictUpsert {d : List (String × α)} {k x : String} {v : α} :
    x ∈ keysOf (dictUpsert d k v) ↔ x ∈ keysOf d ∨ x = k := by
  rw [keysOf_dictUpsert]
  by_cases h : k ∈ keysOf d
  · rw [if_pos h]
    constructor
    · exact Or.inl
    · rintro (hx | rfl) <;> [exact hx; exact h]
  · rw [if_neg h]; simp

theorem nodup_keysOf_dictUpsert {d : List (String × α)} {k : String} {v : α}
    (h : (keysOf d).Nodup) : (keysOf (dictUpsert d k v)).Nodup := by
  rw [keysOf_dictUpsert]
  by_cases hk : k ∈ keysOf d
  · rwa [if_pos hk]
  · rw [if_neg hk]
    simpa [List.nodup_append] using ⟨h, fun hc => hk hc⟩

theorem foldlUpsert_keys (sessions : List PlayerSession) :
    ∀ d0 : List (String × PlayerSession), (keysOf d0).Nodup →
      (keysOf (sessions.foldl (fun d s => dictUpsert d s.xuid s) d0)).Nodup
      ∧ ∀ x, x ∈ keysOf (sessions.foldl (fun d s => dictUpsert d s.xuid s) d0) ↔
          x ∈ keysOf d0 ∨ x ∈ sessions.map (fun s => s.xuid) := by
  induction sessions with
  | nil => intro d0 h; exact ⟨h, by simp⟩
  | cons s rest ih =>
    intro d0 h
    obtain ⟨h1, h2⟩ := ih (dictUpsert d0 s.xuid s) (nodup_keysOf_dictUpsert h)
    refine ⟨h1, fun x => ?_⟩
    rw [List.foldl_cons] at *
    rw [h2 x, mem_keysOf_dictUpsert]
    simp only [List.map_cons, List.mem_cons]
    tauto

theorem sessionDictOf_keys (sessions : List PlayerSession) :
    (keysOf (sessionDictOf sessions)).Nodup
    ∧ ∀ x, x ∈ keysOf (sessionDictOf sessions) ↔ x ∈ sessions.map (fun s => s.xuid) := by
  obtain ⟨h1, h2⟩ := foldlUpsert_keys sessions [] (by simp [keysOf])
  exact ⟨h1, fun x => by simpa [keysOf] using h2 x⟩

theorem keyInv_dictUpsert {d : List (String × PlayerSession)} {s : PlayerSession}
    (h : KeyInv d) : KeyInv (dictUpsert d s.xuid s) := by
  unfold dictUpsert
  split
  · intro p hp
    obtain ⟨q, hq, rfl⟩ := List.mem_map.mp hp
    by_cases hqk : q.1 = s.xuid <;> simp [hqk, h q hq]
  · intro p hp
    rcases List.mem_append.mp hp with hq | hq
    · exact h p hq
    · simp at hq; subst hq; rfl

theorem sessionDictOf_keyInv (sessions : List PlayerSession) :
    KeyInv (sessionDictOf sessions) := by
  suffices hgen : ∀ d0, KeyInv d0 →
      KeyInv (sessions.foldl (fun d s => dictUpsert d s.xuid s) d0) from
    hgen [] (by intro p hp; cases hp)
  induction sessions with
  | nil => intro d0 h; exact h
  | cons s rest ih => intro d0 h; exact ih _ (keyInv_dictUpsert h)

theorem applyCacheResults_keys (gl : List (Option String)) :
    ∀ d : List (String × PlayerSession),
      keysOf (applyCacheResults d gl).1 = keysOf d
      ∧ (∀ x ∈ (applyCacheResults d gl).2, x ∈ keysOf d)
      ∧ (KeyInv d → KeyInv (applyCacheResults d gl).1) := by
  suffices hgen : ∀ (d : List (String × PlayerSession)) (gl : List (Option String)),
      keysOf (applyCacheResults d gl).1 = keysOf d
      ∧ (∀ x ∈ (applyCacheResults d gl).2, x ∈ keysOf d)
      ∧ (KeyInv d → KeyInv (applyCacheResults d gl).1) from fun d => hgen d gl
  intro d
  induction d with
  | nil =>
    intro gl
    exact ⟨rfl, ⟨fun x hx => by simp [applyCacheResults] at hx, fun h => h⟩⟩
  | cons p rest ih =>
    intro gl
    obtain ⟨k, s⟩ := p
    obtain ⟨ih1, ih2, ih3⟩ := ih gl.tail
    refine ⟨?_, ?_, ?_⟩
    · have h1 := ih1
      simp only [keysOf] at h1 ⊢
      simp [applyCacheResults, h1]
    · intro x hx
      simp only [applyCacheResults] at hx
      split at hx
      · exact List.mem_cons_of_mem _ (ih2 x hx)
      · rcases List.mem_cons.mp hx with rfl | hx'
        · exact List.mem_cons_self _ _
        · exact List.mem_cons_of_mem _ (ih2 x hx')
    · intro hinv p hp
      simp only [applyCacheResults] at hp
      rcases List.mem_cons.mp hp with rfl | hp'
      · exact hinv (k, s) (List.mem_cons_self _ _)
      · exact ih3 (fun q hq => hinv q (List.mem_cons_of_mem _ hq)) p hp'

theorem mergeResolved_some (gd : List (String × GamertagInfo)) :
    ∀ d : List (String × PlayerSession), (∀ q ∈ gd, q.1 ∈ keysOf d) →
      ∃ d2, mergeResolved d gd = some d2 ∧ keysOf d2 = keysOf d
        ∧ (KeyInv d → KeyInv d2) := by
  induction gd with
  | nil => intro d _; exact ⟨d, rfl, rfl, fun h => h⟩
  | cons q rest ih =>
    intro d hq
    obtain ⟨x, gi⟩ := q
    have hx : x ∈ keysOf d := hq (x, gi) (List.mem_cons_self _ _)
    have hkeys : keysOf (d.map (fun p =>
        if p.1 == x then (p.1, { p.2 with gamertag := some gi.gamertag, device := gi.device })
        else p)) = keysOf d := by
      simp only [keysOf, List.map_map]
      apply List.map_congr_left
      intro p _
      by_cases hp : p.1 = x <;> simp [hp]
    obtain ⟨d2, h1, h2, h3⟩ := ih _ (by
      intro r hr
      rw [hkeys]
      exact hq r (List.mem_cons_of_mem _ hr))
    refine ⟨d2, ?_, h2.trans hkeys, ?_⟩
    · simp only [mergeResolved]
      rw [if_pos ((any_key_eq_mem d x).mpr hx)]
      exact h1
    · intro hinv
      apply h3
      intro p hp
      obtain ⟨r, hr, rfl⟩ := List.mem_map.mp hp
      by_cases hrx : r.1 = x <;> simp [hrx, hinv r hr]

/-! ## Claims C1 and C2: the SessionFiller entry point -/

theorem out_map_xuid {d : List (String × PlayerSession)} (h : KeyInv d) :
    (d.map (fun p => p.2)).map (fun s => s.xuid) = keysOf d := by
  simp only [keysOf, List.map_map]
  exact List.map_congr_left (fun p hp => h p hp)

theorem fill_finish (resolver : List String → List (String × GamertagInfo))
    (hres : ∀ u q, q ∈ resolver u → q.1 ∈ u)
    (d1 : List (String × PlayerSession)) (unres : List String)
    (hsub : ∀ x ∈ unres, x ∈ keysOf d1) (hinv : KeyInv d1) :
    ∃ out,
      (if unres.isEmpty then some (d1.map (fun p => p.2))
       else (mergeResolved d1 (resolver unres)).map (fun d2 => d2.map (fun p => p.2)))
        = some out
      ∧ out.map (fun s => s.xuid) = keysOf d1 := by
  by_cases he : unres.isEmpty
  · rw [if_pos he]
    exact ⟨_, rfl, out_map_xuid hinv⟩
  · rw [if_neg he]
    obtain ⟨d2, h1, h2, h3⟩ := mergeResolved_some (resolver unres) d1
      (fun q hq => hsub q.1 (hres unres q hq))
    refine ⟨d2.map (fun p => p.2), ?_, (out_map_xuid (h3 hinv)).trans h2⟩
    rw [h1]
    rfl

/-- Claim C1, counterexample: two input records sharing the identifier "a"
produce a single output record — `fill_in_gamertags_for_sessions` does not
return all input records when identifiers repeat, because it returns
`list(session_dict.values())` of the keyed (collapsing) map. -/
theorem C1_counterexample :
    (fillSessions (fun _ => some "n") (fun _ => [])
        [⟨"a", none, none⟩, ⟨"a", none, none⟩] false []).map List.length = some 1
    ∧ ([(⟨"a", none, none⟩ : PlayerSession), ⟨"a", none, none⟩]).length = 2 :=
  ⟨rfl, rfl⟩

/-- Claim C1 (amended): `fillSessions` returns exactly one record per
distinct input identifier — the output identifiers are duplicate-free and
are exactly the distinct input identifiers (so each identifier group
receives one resolved record, but duplicate records beyond the last are
dropped, not returned).  Hypothesis: the resolver returns only pairs for
identifiers it was asked about (true of `GamertagHandler.run`). -/
theorem C1_keyed_collapse (cache : String → Option String)
    (resolver : List String → List (String × GamertagInfo))
    (sessions : List PlayerSession) (bypass_cache : Bool) (bcf : List String)
    (hres : ∀ u q, q ∈ resolver u → q.1 ∈ u) :
    ∃ out, fillSessions cache resolver sessions bypass_cache bcf = some out
      ∧ (out.map (fun s => s.xuid)).Nodup
      ∧ ∀ x, x ∈ out.map (fun s => s.xuid) ↔ x ∈ sessions.map (fun s => s.xuid) := by
  obtain ⟨hnd, hmem⟩ := sessionDictOf_keys sessions
  have hinv := sessionDictOf_keyInv sessions
  have hrun : ∃ out, fillSessions cache resolver sessions bypass_cache bcf = some out
      ∧ out.map (fun s => s.xuid) = keysOf (sessionDictOf sessions) := by
    cases bypass_cache with
    | true =>
      obtain ⟨out, h1, h2⟩ :=
        fill_finish resolver hres (sessionDictOf sessions)
          (keysOf (sessionDictOf sessions)) (fun x hx => hx) hinv
      exact ⟨out, h1, h2⟩
    | false =>
      obtain ⟨hk, hsub, hkeep⟩ :=
        applyCacheResults_keys (gamertagList cache sessions bcf) (sessionDictOf sessions)
      obtain ⟨out, h1, h2⟩ :=
        fill_finish resolver hres
          (applyCacheResults (sessionDictOf sessions) (gamertagList cache sessions bcf)).1
          (applyCacheResults (sessionDictOf sessions) (gamertagList cache sessions bcf)).2
          (fun x hx => by rw [hk]; exact hsub x hx) (hkeep hinv)
      exact ⟨out, h1, h2.trans hk⟩
  obtain ⟨out, ho, hkeys⟩ := hrun
  refine ⟨out, ho, by rw [hkeys]; exact hnd, fun x => by rw [hkeys]; exact hmem x⟩

/-- Witness for `C1_keyed_collapse` at a concrete input. -/
theorem C1_keyed_collapse_witness :
    ∃ out, fillSessions (fun _ => none)
        (fun u => u.map (fun x => (x, ⟨"GT", none⟩)))
        [⟨"a", none, none⟩, ⟨"b", none, none⟩] false [] = some out
      ∧ (out.map (fun s => s.xuid)).Nodup
      ∧ ∀ x, x ∈ out.map (fun s => s.xuid) ↔
          x ∈ ([⟨"a", none, none⟩, ⟨"b", none, none⟩] : List PlayerSession).map
                (fun s => s.xuid) :=
  C1_keyed_collapse _ _ _ _ _
    (fun u q hq => by
      obtain ⟨x, hx, rfl⟩ := List.mem_map.mp hq
      exact hx)

theorem dictUpsert_fresh {d : List (String × α)} {k : String} {v : α}
    (h : k ∉ keysOf d) : dictUpsert d k v = d ++ [(k, v)] := by
  unfold dictUpsert
  rw [if_neg (fun hc => h ((any_key_eq_mem d k).mp hc))]

theorem sessionDictOf_nodup (sessions : List PlayerSession)
    (h : (sessions.map (fun s => s.xuid)).Nodup) :
    sessionDictOf sessions = sessions.map (fun s => (s.xuid, s)) := by
  suffices hgen : ∀ (l : List PlayerSession) (d0 : List (String × PlayerSession)),
      (l.map (fun s => s.xuid)).Nodup →
      (∀ s ∈ l, s.xuid ∉ keysOf d0) →
      l.foldl (fun d s => dictUpsert d s.xuid s) d0 = d0 ++ l.map (fun s => (s.xuid, s)) by
    simpa using hgen sessions [] h (by intro s _ hc; simp [keysOf] at hc)
  intro l
  induction l with
  | nil => intro d0 _ _; simp
  | cons s rest ih =>
    intro d0 hnd hfresh
    simp only [List.map_cons, List.nodup_cons] at hnd
    rw [List.foldl_cons, dictUpsert_fresh (hfresh s (List.mem_cons_self _ _)),
      ih (d0 ++ [(s.xuid, s)]) hnd.2 ?fresh]
    · simp
    case fresh =>
      intro t ht hc
      have hk : keysOf (d0 ++ [(s.xuid, s)]) = keysOf d0 ++ [s.xuid] := by
        simp [keysOf]
      rw [hk, List.mem_append] at hc
      rcases hc with hc | hc
      · exact hfresh t (List.mem_cons_of_mem _ ht) hc
      · simp only [List.mem_singleton] at hc
        exact hnd.1 (List.mem_map.mpr ⟨t, ht, hc⟩)

theorem gamertagList_eq (cache : String → Option String)
    (sessions : List PlayerSession) (bcf : List String) :
    gamertagList cache sessions bcf
      = sessions.map (fun s => cache (sessionKey bcf s)) := by
  simp [gamertagList, cacheRequests, List.map_map, Function.comp]

theorem applyCacheResults_on_maps (cache : String → Option String)
    (bcf : List String) (l : List PlayerSession) :
    (applyCacheResults (l.map (fun s => (s.xuid, s)))
        (l.map (fun s => cache (sessionKey bcf s)))).2
      = (l.filter (fun s => !truthy (cache (sessionKey bcf s)))).map
          (fun s => s.xuid) := by
  induction l with
  | nil => rfl
  | cons s rest ih =>
    by_cases hg : truthy (cache (sessionKey bcf s)) <;>
      simp [applyCacheResults, List.filter_cons, hg, ih]

/-- Claim C2, counterexample: with duplicate identifiers the read-back loop
iterates distinct keys against per-record positional results, so they
misalign — here the request at position 2 is identifier "b" and its result
is a miss, yet the unresolved set is empty (identifier "b" silently receives
identifier "a"'s cached value). -/
theorem C2_counterexample :
    (applyCacheResults
        (sessionDictOf [⟨"a", none, none⟩, ⟨"a", none, none⟩, ⟨"b", none, none⟩])
        (gamertagList (fun k => if k == "a" then some "alice" else none)
          [⟨"a", none, none⟩, ⟨"a", none, none⟩, ⟨"b", none, none⟩] [])).2 = []
    ∧ (cacheRequests [⟨"a", none, none⟩, ⟨"a", none, none⟩, ⟨"b", none, none⟩] []).getD 2 ""
        = "b"
    ∧ (gamertagList (fun k => if k == "a" then some "alice" else none)
        [⟨"a", none, none⟩, ⟨"a", none, none⟩, ⟨"b", none, none⟩] []).getD 2 (some "")
        = none :=
  ⟨rfl, rfl, rfl⟩

/-- Claim C2 (amended): provided the session records carry pairwise-distinct
identifiers, the single pipelined multi-get requests, in input order, each
record's identifier (the sentinel key substituted for members of
`bypass_cache_for`), and the unresolved set is exactly the identifiers whose
positional result is a miss — including all sentineled ones, the sentinel
being guaranteed absent.  (The cache-never-stores-empty hypothesis reflects
the subsystem's own write-back invariant, claim C10.) -/
theorem C2_cache_alignment (cache : String → Option String)
    (sessions : List PlayerSession) (bcf : List String)
    (hnd : (sessions.map (fun s => s.xuid)).Nodup)
    (hsent : cache SENTINEL = none)
    (hne : ∀ k v, cache k = some v → v ≠ "") :
    cacheRequests sessions bcf
      = sessions.map (fun s => if s.xuid ∈ bcf then SENTINEL else s.xuid)
    ∧ (applyCacheResults (sessionDictOf sessions)
          (gamertagList cache sessions bcf)).2
        = (sessions.filter (fun s => (cache (sessionKey bcf s)).isNone)).map
            (fun s => s.xuid)
    ∧ ∀ s ∈ sessions, s.xuid ∈ bcf →
        s.xuid ∈ (applyCacheResults (sessionDictOf sessions)
            (gamertagList cache sessions bcf)).2 := by
  have hmain : (applyCacheResults (sessionDictOf sessions)
        (gamertagList cache sessions bcf)).2
      = (sessions.filter (fun s => (cache (sessionKey bcf s)).isNone)).map
          (fun s => s.xuid) := by
    rw [sessionDictOf_nodup sessions hnd, gamertagList_eq,
      applyCacheResults_on_maps]
    congr 1
    apply List.filter_congr
    intro s _
    cases hcv : cache (sessionKey bcf s) with
    | none => rfl
    | some v =>
      have := hne _ _ hcv
      simp [truthy, this]
  refine ⟨rfl, hmain, ?_⟩
  intro s hs hb
  rw [hmain]
  refine List.mem_map.mpr ⟨s, List.mem_filter.mpr ⟨hs, ?_⟩, rfl⟩
  have : sessionKey bcf s = SENTINEL := if_pos hb
  rw [this, hsent]
  rfl

/-- Witness for `C2_cache_alignment` at a concrete input: identifier "x1" is
bypassed (sentineled) and identifier "x2" has no cache entry, so both are
unresolved. -/
theorem C2_cache_alignment_witness :
    (applyCacheResults
        (sessionDictOf [⟨"x1", none, none⟩, ⟨"x2", none, none⟩])
        (gamertagList (fun k => if k == "x1" then some "n" else none)
          [⟨"x1", none, none⟩, ⟨"x2", none, none⟩] ["x1"])).2 = ["x1", "x2"] := by
  have h := C2_cache_alignment (fun k => if k == "x1" then some "n" else none)
    [⟨"x1", none, none⟩, ⟨"x2", none, none⟩] ["x1"]
    (by decide) rfl
    (by
      intro k v hv
      by_cases hk : (k == "x1") = true
      · simp only [hk, if_true, Option.some.injEq] at hv
        subst hv
        decide
      · simp only [hk, if_false] at hv
        cases hv)
  rw [h.2.1]
  rfl

/-! ## Claims C4 and C5: the bulk attempt and its error taxonomy -/

theorem getGamertagsModel_ok {bulk : List String → BulkCallResult}
    {w : List String} {r : PeopleHubResponse} (h : bulk w = .ok r) :
    getGamertagsModel bulk w = .success r := by
  unfold getGamertagsModel
  rw [h]

theorem getGamertagsModel_parseFail {bulk : List String → BulkCallResult}
    {w : List String} (h : bulk w = .parseFail) :
    getGamertagsModel bulk w = .recoverable .validationError := by
  unfold getGamertagsModel
  rw [h]

theorem getGamertagsModel_cooldown {bulk : List String → BulkCallResult}
    {w : List String} {e : BulkErrorResponse} (h1 : bulk w = .exn e)
    (h2 : classifyBulkError w e = .cooldown) :
    getGamertagsModel bulk w = .recoverable .cooldown := by
  unfold getGamertagsModel
  rw [h1]
  split <;> (try simp_all) <;> (split <;> simp_all)

theorem getGamertagsModel_reraise {bulk : List String → BulkCallResult}
    {w : List String} {e : BulkErrorResponse} (h1 : bulk w = .exn e)
    (h2 : classifyBulkError w e = .reraise) :
    getGamertagsModel bulk w = .recoverable .msApiReraise := by
  unfold getGamertagsModel
  rw [h1]
  split <;> (try simp_all) <;> (split <;> simp_all)

theorem getGamertagsModel_fatal {bulk : List String → BulkCallResult}
    {w : List String} {e : BulkErrorResponse} {pe : PyError} (h1 : bulk w = .exn e)
    (h2 : classifyBulkError w e = .fatal pe) :
    getGamertagsModel bulk w = .fatal pe := by
  unfold getGamertagsModel
  rw [h1]
  split <;> (try simp_all) <;> (split <;> simp_all)

theorem getGamertagsModel_prune {bulk : List String → BulkCallResult}
    {w : List String} {e : BulkErrorResponse} {b : String} (h1 : bulk w = .exn e)
    (h2 : classifyBulkError w e = .pruneRetry b) :
    getGamertagsModel bulk w = getGamertagsModel bulk (w.erase b) := by
  conv_lhs => unfold getGamertagsModel
  rw [h1]
  split <;> (try simp_all) <;> (split <;> simp_all)

theorem getGamertagsFuel_spec (bulk : List String → BulkCallResult) :
    ∀ f w, w.length < f →
      getGamertagsFuel bulk f w = some (getGamertagsModel bulk w) := by
  intro f
  induction f with
  | zero => intro w h; omega
  | succ f ih =>
    intro w h
    cases hb : bulk w with
    | ok r => simp [getGamertagsFuel, hb, getGamertagsModel_ok hb]
    | parseFail => simp [getGamertagsFuel, hb, getGamertagsModel_parseFail hb]
    | exn e =>
      cases hc : classifyBulkError w e with
      | cooldown => simp [getGamertagsFuel, hb, hc, getGamertagsModel_cooldown hb hc]
      | reraise => simp [getGamertagsFuel, hb, hc, getGamertagsModel_reraise hb hc]
      | fatal pe => simp [getGamertagsFuel, hb, hc, getGamertagsModel_fatal hb hc]
      | pruneRetry b =>
        have hm := classify_prune_mem hc
        have hlen := List.length_erase_of_mem hm
        have hpos : 0 < w.length := List.length_pos.mpr (by rintro rfl; cases hm)
        simp only [getGamertagsFuel, hb, hc]
        rw [getGamertagsModel_prune hb hc]
        exact ih (w.erase b) (by omega)

theorem erase_filter_not (bad : List String) {b : String} (hb : b ∈ bad)
    (w : List String) :
    (w.erase b).filter (fun x => !bad.contains x)
      = w.filter (fun x => !bad.contains x) := by
  induction w with
  | nil => rfl
  | cons x xs ih =>
    rw [List.erase_cons]
    by_cases hx : (x == b) = true
    · rw [if_pos hx]
      have hxb : x ∈ bad := beq_iff_eq.mp hx ▸ hb
      have : bad.contains x = true := List.elem_iff.mpr hxb
      simp [List.filter_cons, this, hxb]
    · rw [if_neg hx, List.filter_cons, List.filter_cons, ih]

/-- Claim C4: the invalid-identifier prune loop.  The provider is any oracle
reporting, on each call whose window still contains a bad identifier, a
single invalid identifier from `bad` (and succeeding otherwise).  The
attempt converges — and does so within window-size retries, expressed by the
fuel bound `w.length + 1` — to a success over exactly the window minus the
bad identifiers.  The Python recursion (lines 110-113) is depth-bounded in
the same way: each retry removes one occurrence from the window. -/
theorem C4_prune_convergence (bulk : List String → BulkCallResult)
    (bad : List String) (mk : List String → PeopleHubResponse)
    (hok : ∀ w, w.filter (fun x => bad.contains x) = [] → bulk w = .ok (mk w))
    (hbad : ∀ w, w.filter (fun x => bad.contains x) ≠ [] →
      ∃ e b, bulk w = .exn e ∧ classifyBulkError w e = .pruneRetry b ∧ b ∈ bad)
    (w : List String) :
    getGamertagsModel bulk w = .success (mk (w.filter (fun x => !bad.contains x)))
    ∧ getGamertagsFuel bulk (w.length + 1) w
        = some (.success (mk (w.filter (fun x => !bad.contains x)))) := by
  have hmain : ∀ n (w : List String), w.length ≤ n →
      getGamertagsModel bulk w
        = .success (mk (w.filter (fun x => !bad.contains x))) := by
    intro n
    induction n with
    | zero =>
      intro w hw
      have hnil : w = [] := List.length_eq_zero.mp (Nat.le_zero.mp hw)
      subst hnil
      rw [getGamertagsModel_ok (hok [] rfl)]
      rfl
    | succ n ih =>
      intro w hw
      by_cases hf : w.filter (fun x => bad.contains x) = []
      · rw [getGamertagsModel_ok (hok w hf)]
        have : w.filter (fun x => !bad.contains x) = w := by
          rw [List.filter_eq_self]
          intro a ha
          have hfa := (List.filter_eq_nil_iff.mp hf) a ha
          simp only [Bool.not_eq_true] at hfa
          rw [hfa]
          rfl
        rw [this]
      · obtain ⟨e, b, hbulk, hcls, hbbad⟩ := hbad w hf
        rw [getGamertagsModel_prune hbulk hcls]
        have hm := classify_prune_mem hcls
        have hlen := List.length_erase_of_mem hm
        have hpos : 0 < w.length := List.length_pos.mpr (by rintro rfl; cases hm)
        rw [ih (w.erase b) (by omega), erase_filter_not bad hbbad w]
  refine ⟨hmain w.length w le_rfl, ?_⟩
  rw [getGamertagsFuel_spec bulk (w.length + 1) w (by omega),
    hmain w.length w le_rfl]

/-- Witness for `C4_prune_convergence`: a provider for which the identifier
"2" is invalid, over the window ["1", "2", "3"]. -/
theorem C4_prune_convergence_witness :
    getGamertagsModel
        (fun w => if w.contains "2" then
            .exn (.apiException ⟨true, some "Invalid 2 rejected", false⟩)
          else .ok ⟨w.map (fun x => ⟨x, "GT-" ++ x, []⟩)⟩)
        ["1", "2", "3"]
      = .success ⟨[⟨"1", "GT-1", []⟩, ⟨"3", "GT-3", []⟩]⟩ := by
  have h := C4_prune_convergence
    (fun w => if w.contains "2" then
        .exn (.apiException ⟨true, some "Invalid 2 rejected", false⟩)
      else .ok ⟨w.map (fun x => ⟨x, "GT-" ++ x, []⟩)⟩)
    ["2"] (fun w => ⟨w.map (fun x => ⟨x, "GT-" ++ x, []⟩)⟩)
    (by
      intro w hw
      have h2 : "2" ∉ w := by
        intro hmem
        have : "2" ∈ w.filter (fun x => List.contains ["2"] x) :=
          List.mem_filter.mpr ⟨hmem, by decide⟩
        rw [hw] at this
        cases this
      have hc : w.contains "2" = false := by
        cases hcon : w.contains "2"
        · rfl
        · exact absurd (List.elem_iff.mp hcon) h2
      simp [hc, h2])
    (by
      intro w hw
      have h2 : "2" ∈ w := by
        obtain ⟨x, hx⟩ := List.exists_mem_of_ne_nil _ hw
        obtain ⟨hxw, hxc⟩ := List.mem_filter.mp hx
        have hx2 : x = "2" := by
          have := List.elem_iff.mp hxc
          simpa using this
        exact hx2 ▸ hxw
      have hc : w.contains "2" = true := List.elem_iff.mpr h2
      refine ⟨.apiException ⟨true, some "Invalid 2 rejected", false⟩, "2",
        by simp [hc, h2], ?_, by decide⟩
      have hsw : secondWord "Invalid 2 rejected" = some "2" := by decide
      have hth : strStartsWith "Invalid 2 rejected" "Throttled" = false := by decide
      simp [classifyBulkError, hsw, hth, h2])
    ["1", "2", "3"]
  rw [h.1]
  rfl

/-- Claim C5, counterexample: a coded response that does not start with the
throttle marker and does not name an identifier in the window — the claim
says any such other coded response yields a cooldown signal, but the code
unconditionally takes the invalid-xuid path, here failing with the
(unrecoverable) `ValueError` from `xuid_list.remove`. -/
theorem C5_counterexample :
    classifyBulkError ["123"]
        (.apiException ⟨true, some "Forbidden request denied", false⟩)
      = .fatal .valueError
    ∧ BulkClassification.fatal .valueError ≠ .cooldown := by
  constructor
  · decide
  · decide

/-- Claim C5 (amended): the bulk-call error taxonomy as implemented.  A coded
response whose description starts with "Throttled" yields the cooldown
signal; any other coded response is treated as naming an invalid identifier
— its description's second token is pruned when it is in the window (there
is no other-coded-response → cooldown path; a second token absent from the
window makes `remove` raise an unrecoverable `ValueError`); a non-coded
ratelimit (`limitType`) response yields the cooldown signal; a non-coded,
non-ratelimit API response is re-raised; transport and body-parse failures
are unrecoverable, never recoverable. -/
theorem C5_taxonomy (w : List String) (b : ErrBody) :
    (∀ d, b.hasCode = true → b.description = some d →
      strStartsWith d "Throttled" = true →
        classifyBulkError w (.apiException b) = .cooldown)
    ∧ (∀ d bad, b.hasCode = true → b.description = some d →
        strStartsWith d "Throttled" = false → secondWord d = some bad →
        (bad ∈ w → classifyBulkError w (.apiException b) = .pruneRetry bad)
        ∧ (bad ∉ w → classifyBulkError w (.apiException b) = .fatal .valueError))
    ∧ (b.hasCode = false → b.hasLimitType = true →
        classifyBulkError w (.apiException b) = .cooldown)
    ∧ (b.hasCode = false → b.hasLimitType = false →
        classifyBulkError w (.apiException b) = .reraise)
    ∧ classifyBulkError w .transportError = .fatal .transportError
    ∧ classifyBulkError w .bodyParseError = .fatal .jsonError
    ∧ ∀ k, classifyBulkError w .transportError ≠ .pruneRetry k
        ∧ classifyBulkError w .bodyParseError ≠ .pruneRetry k
        ∧ classifyBulkError w .transportError ≠ .cooldown
        ∧ classifyBulkError w .bodyParseError ≠ .cooldown := by
  refine ⟨?_, ?_, ?_, ?_, rfl, rfl, ?_⟩
  · intro d hc hd ht
    simp [classifyBulkError, hc, hd, ht]
  · intro d bad hc hd ht hs
    constructor
    · intro hm
      simp [classifyBulkError, hc, hd, ht, hs, hm]
    · intro hm
      simp [classifyBulkError, hc, hd, ht, hs, hm]
  · intro hc hl
    simp [classifyBulkError, hc, hl]
  · intro hc hl
    simp [classifyBulkError, hc, hl]
  · intro k
    refine ⟨by simp [classifyBulkError], by simp [classifyBulkError],
      by simp [classifyBulkError], by simp [classifyBulkError]⟩

/-- Witness for `C5_taxonomy`: a throttled coded response yields cooldown. -/
theorem C5_taxonomy_witness :
    classifyBulkError ["1"] (.apiException ⟨true, some "Throttled x", false⟩)
      = .cooldown :=
  (C5_taxonomy ["1"] ⟨true, some "Throttled x", false⟩).1 "Throttled x"
    rfl rfl (by decide)

/-! ## Claims C3, C6 and C7: the main loop, its cursor and its failure mode -/

theorem backupRun_succ_nil {fb : String → FallbackResult} {b : Nat}
    {st : HandlerState} (hd : st.xuids.drop st.index = []) :
    backupRun fb (b + 1) st = .ok st := by
  simp only [backupRun]
  rw [hd]

theorem backupRun_succ_cons {fb : String → FallbackResult} {b : Nat}
    {st : HandlerState} {x : String} {xs : List String}
    (hd : st.xuids.drop st.index = x :: xs) :
    backupRun fb (b + 1) st
      = match fb x with
        | .hard e => .error e
        | .ok r =>
          backupRun fb b
            { st with responses := st.responses ++ [.profile r],
                      index := st.index + 1 }
        | .soft => backupRun fb b { st with index := st.index + 1 } := by
  simp only [backupRun]
  rw [hd]

theorem backupRun_succ_cons_ok {fb : String → FallbackResult} {b : Nat}
    {st : HandlerState} {x : String} {xs : List String} {r : ProfileResponse}
    (hd : st.xuids.drop st.index = x :: xs) (hf : fb x = .ok r) :
    backupRun fb (b + 1) st
      = backupRun fb b
          { st with responses := st.responses ++ [.profile r],
                    index := st.index + 1 } := by
  rw [backupRun_succ_cons hd, hf]

theorem backupRun_succ_cons_soft {fb : String → FallbackResult} {b : Nat}
    {st : HandlerState} {x : String} {xs : List String}
    (hd : st.xuids.drop st.index = x :: xs) (hf : fb x = .soft) :
    backupRun fb (b + 1) st
      = backupRun fb b { st with index := st.index + 1 } := by
  rw [backupRun_succ_cons hd, hf]

theorem backupRun_succ_cons_hard {fb : String → FallbackResult} {b : Nat}
    {st : HandlerState} {x : String} {xs : List String} {e : PyError}
    (hd : st.xuids.drop st.index = x :: xs) (hf : fb x = .hard e) :
    backupRun fb (b + 1) st = .error e := by
  rw [backupRun_succ_cons hd, hf]

theorem backupRun_mono (fb : String → FallbackResult) :
    ∀ (b : Nat) (st st' : HandlerState), backupRun fb b st = .ok st' →
      st.index ≤ st'.index ∧ st'.xuids = st.xuids := by
  intro b
  induction b with
  | zero =>
    intro st st' h
    cases h
    exact ⟨le_rfl, rfl⟩
  | succ b ih =>
    intro st st' h
    cases hd : st.xuids.drop st.index with
    | nil =>
      rw [backupRun_succ_nil hd] at h
      cases h
      exact ⟨le_rfl, rfl⟩
    | cons x xs =>
      cases hf : fb x with
      | hard e =>
        rw [backupRun_succ_cons_hard hd hf] at h
        cases h
      | ok r =>
        rw [backupRun_succ_cons_ok hd hf] at h
        obtain ⟨h1, h2⟩ := ih _ _ h
        exact ⟨le_trans (Nat.le_succ st.index) h1, h2⟩
      | soft =>
        rw [backupRun_succ_cons_soft hd hf] at h
        obtain ⟨h1, h2⟩ := ih _ _ h
        exact ⟨le_trans (Nat.le_succ st.index) h1, h2⟩

theorem backupRun_nohard (fb : String → FallbackResult) :
    ∀ (b : Nat) (st : HandlerState),
      (∀ x ∈ (st.xuids.drop st.index).take b, ∀ e, fb x ≠ .hard e) →
      ∃ st', backupRun fb b st = .ok st'
        ∧ st'.index = st.index + min b (st.xuids.length - st.index)
        ∧ st'.xuids = st.xuids
        ∧ st'.responses = st.responses
            ++ ((st.xuids.drop st.index).take b).filterMap
                (fun x => fallbackResp (fb x)) := by
  intro b
  induction b with
  | zero =>
    intro st _
    exact ⟨st, rfl, by simp, rfl, by simp⟩
  | succ b ih =>
    intro st hh
    cases hd : st.xuids.drop st.index with
    | nil =>
      have hle : st.xuids.length ≤ st.index := List.drop_eq_nil_iff.mp hd
      refine ⟨st, backupRun_succ_nil hd, ?_, rfl, by simp [hd]⟩
      have h0 : st.xuids.length - st.index = 0 := by omega
      simp [h0]
    | cons x xs =>
      have hlt : st.index < st.xuids.length := by
        by_contra hc
        rw [List.drop_eq_nil_iff.mpr (by omega)] at hd
        cases hd
      have hxs : st.xuids.drop (st.index + 1) = xs := by
        rw [← List.tail_drop, hd]
        rfl
      have htake : (st.xuids.drop st.index).take (b + 1) = x :: xs.take b := by
        rw [hd, List.take_succ_cons]
      have hxmem : x ∈ (st.xuids.drop st.index).take (b + 1) := by
        rw [htake]
        exact List.mem_cons_self _ _
      cases hf : fb x with
      | hard e => exact absurd hf (hh x hxmem e)
      | ok r =>
        obtain ⟨st', h1, h2, h3, h4⟩ :=
          ih { st with responses := st.responses ++ [.profile r],
                       index := st.index + 1 }
            (by
              intro y hy e
              have hy' : y ∈ xs.take b := by simpa [hxs] using hy
              exact hh y (htake ▸ List.mem_cons_of_mem _ hy') e)
        refine ⟨st', by rw [backupRun_succ_cons_ok hd hf]; exact h1, ?_, h3, ?_⟩
        · rw [h2]
          simp only []
          omega
        · rw [h4]
          simp only [hxs, List.take_succ_cons]
          simp [List.filterMap_cons, fallbackResp, hf]
      | soft =>
        obtain ⟨st', h1, h2, h3, h4⟩ :=
          ih { st with index := st.index + 1 }
            (by
              intro y hy e
              have hy' : y ∈ xs.take b := by simpa [hxs] using hy
              exact hh y (htake ▸ List.mem_cons_of_mem _ hy') e)
        refine ⟨st', by rw [backupRun_succ_cons_soft hd hf]; exact h1, ?_, h3, ?_⟩
        · rw [h2]
          simp only []
          omega
        · rw [h4]
          simp only [hxs, List.take_succ_cons]
          simp [List.filterMap_cons, fallbackResp, hf]

theorem runLoopFuel_stop (envs : Nat → StepEnv) :
    ∀ (f i : Nat) (st res : HandlerState),
      runLoopFuel envs i f st = some (.ok res) →
      res.xuids.length ≤ res.index := by
  intro f
  induction f with
  | zero => intro i st res h; cases h
  | succ f ih =>
    intro i st res h
    simp only [runLoopFuel] at h
    split at h
    · cases hs : (runStep (envs i) st).1 with
      | ok st2 =>
        rw [hs] at h
        exact ih (i + 1) st2 res h
      | error e =>
        rw [hs] at h
        cases h
    · cases h
      omega

/-- Claim C3, counterexample: with a single identifier and a succeeding bulk
provider, the window has size 1 but the cursor advances by the fixed constant
500, and the loop terminates with the cursor at 500 — not equal to the total
identifier count 1. -/
theorem C3_counterexample :
    (runStep ⟨fun w => .ok ⟨w.map (fun x => ⟨x, "GT", []⟩)⟩, fun _ => .soft, 0⟩
        ⟨["1"], 0, []⟩).1
      = .ok ⟨["1"], 500, [.peopleHub ⟨[⟨"1", "GT", []⟩]⟩]⟩
    ∧ (windowOf ⟨["1"], 0, []⟩).length = 1
    ∧ runLoopFuel
        (fun _ => ⟨fun w => .ok ⟨w.map (fun x => ⟨x, "GT", []⟩)⟩, fun _ => .soft, 0⟩)
        0 2 ⟨["1"], 0, []⟩
      = some (.ok ⟨["1"], 500, [.peopleHub ⟨[⟨"1", "GT", []⟩]⟩]⟩)
    ∧ (500 : Nat) ≠ 1 := by
  have hg : getGamertagsModel
      (fun w => BulkCallResult.ok (⟨w.map (fun x => ⟨x, "GT", []⟩)⟩ : PeopleHubResponse))
      (windowOf ⟨["1"], 0, []⟩) = .success ⟨[⟨"1", "GT", []⟩]⟩ :=
    @getGamertagsModel_ok
      (fun w => BulkCallResult.ok (⟨w.map (fun x => ⟨x, "GT", []⟩)⟩ : PeopleHubResponse))
      (windowOf ⟨["1"], 0, []⟩) ⟨[⟨"1", "GT", []⟩]⟩ rfl
  refine ⟨?_, rfl, ?_, by decide⟩
  · simp [runStep, hg, AMOUNT_TO_GET]
  · have h1 : runLoopFuel
        (fun _ => ⟨fun w => .ok ⟨w.map (fun x => ⟨x, "GT", []⟩)⟩, fun _ => .soft, 0⟩)
        0 2 ⟨["1"], 0, []⟩
      = runLoopFuel
        (fun _ => ⟨fun w => .ok ⟨w.map (fun x => ⟨x, "GT", []⟩)⟩, fun _ => .soft, 0⟩)
        1 1 ⟨["1"], 500, [.peopleHub ⟨[⟨"1", "GT", []⟩]⟩]⟩ := by
      simp only [runLoopFuel]
      rw [if_pos (by decide)]
      simp [runStep, hg, AMOUNT_TO_GET]
    rw [h1]
    simp only [runLoopFuel]
    rw [if_neg (by decide)]

/-- Claim C3 (amended): throughout every resolve call the cursor is
non-decreasing, and on each successful bulk call it advances by the fixed
batch constant `AMOUNT_TO_GET` (500) — not by the window's actual size — so
the loop terminates exactly when the cursor is at least the total count (it
can strictly exceed the total when the final window is shorter than 500). -/
theorem C3_cursor_monotone (env : StepEnv) (st st' : HandlerState) :
    ((runStep env st).1 = .ok st' → st.index ≤ st'.index ∧ st'.xuids = st.xuids)
    ∧ (∀ r, getGamertagsModel env.bulk (windowOf st) = .success r →
        (runStep env st).1
          = .ok { st with responses := st.responses ++ [.peopleHub r],
                          index := st.index + AMOUNT_TO_GET })
    ∧ (∀ envs i f res, runLoopFuel envs i f st = some (.ok res) →
        res.xuids.length ≤ res.index)
    ∧ (st.xuids.length ≤ st.index → ∀ envs i f,
        runLoopFuel envs i (f + 1) st = some (.ok st)) := by
  refine ⟨?_, ?_, fun envs i f res h => runLoopFuel_stop envs f i st res h, ?_⟩
  · intro h
    cases hg : getGamertagsModel env.bulk (windowOf st) with
    | success r =>
      simp only [runStep, hg] at h
      cases h
      exact ⟨by simp [AMOUNT_TO_GET], rfl⟩
    | recoverable k =>
      simp only [runStep, hg] at h
      exact backupRun_mono env.fallback env.budget st st' h
    | fatal e =>
      simp only [runStep, hg] at h
      cases h
  · intro r hg
    simp [runStep, hg]
  · intro hle envs i f
    simp only [runLoopFuel]
    rw [if_neg (by omega)]

/-- Witness for `C3_cursor_monotone`: one successful step from index 0 over
501 identifiers advances the cursor to exactly 500. -/
theorem C3_cursor_monotone_witness :
    (runStep ⟨fun _ => .ok ⟨[]⟩, fun _ => .soft, 0⟩
        ⟨List.replicate 501 "1", 0, []⟩).1
      = .ok ⟨List.replicate 501 "1", 0 + AMOUNT_TO_GET, [.peopleHub ⟨[]⟩]⟩ := by
  have h := (C3_cursor_monotone ⟨fun _ => .ok ⟨[]⟩, fun _ => .soft, 0⟩
    ⟨List.replicate 501 "1", 0, []⟩
    ⟨List.replicate 501 "1", 0 + AMOUNT_TO_GET, [.peopleHub ⟨[]⟩]⟩).2.1
    ⟨[]⟩ (getGamertagsModel_ok rfl)
  exact h

/-- Claim C6: when an unrecoverable provider error occurs during the loop,
the whole call aborts: the error propagates as the result, no mapping is
produced, nothing is dispatched to the cache, and the iteration's semaphore
permit is still released (one release for the one acquire on every exit
path of `runStep`). -/
theorem C6_abort (env : Nat → StepEnv) (audit : String → String → Bool)
    (gatherFor : List String) (fuel : Nat) (st : HandlerState) (e : PyError)
    (h : runLoopFuel env 0 fuel st = some (.error e)) :
    runModel env audit gatherFor fuel st = some ⟨.error e, [], []⟩
    ∧ ∀ (env' : StepEnv) (st' : HandlerState),
        (runStep env' st').2 = [.acquire, .release] := by
  constructor
  · simp [runModel, h]
  · intro env' st'
    cases hg : getGamertagsModel env'.bulk (windowOf st') <;> simp [runStep, hg]

/-- Witness for `C6_abort`: a transport failure on the first window aborts
the call with no mapping and no cache dispatch. -/
theorem C6_abort_witness :
    runModel (fun _ => ⟨fun _ => .exn .transportError, fun _ => .soft, 0⟩)
        (fun _ _ => true) [] 1 ⟨["1"], 0, []⟩
      = some ⟨.error .transportError, [], []⟩ := by
  have hloop : runLoopFuel (fun _ => ⟨fun _ => .exn .transportError, fun _ => .soft, 0⟩)
      0 1 ⟨["1"], 0, []⟩ = some (.error .transportError) := by
    have hg := @getGamertagsModel_fatal
      (fun _ => BulkCallResult.exn BulkErrorResponse.transportError)
      (windowOf ⟨["1"], 0, []⟩)
      BulkErrorResponse.transportError PyError.transportError rfl rfl
    simp only [runLoopFuel]
    rw [if_pos (by decide)]
    simp [runStep, hg]
  exact (C6_abort _ _ _ _ _ _ hloop).1

/-- Claim C7, counterexample: a fallback attempt can raise an exception the
phase does not catch (the `except` clause of lines 142-146 covers only
content-type, response-status and validation errors) — for instance a
connection-level transport error from the GET itself.  Such an attempt does
not advance the cursor and is not logged-and-skipped: it aborts the whole
call, so the cursor does not advance "regardless of that attempt's
outcome". -/
theorem C7_counterexample :
    backupRun (fun _ => .hard .transportError) 1 ⟨["1", "2"], 0, []⟩
      = .error .transportError
    ∧ (∀ st', backupRun (fun _ => .hard .transportError) 1 ⟨["1", "2"], 0, []⟩
        ≠ .ok st')
    ∧ (runStep ⟨fun _ => .exn (.apiException ⟨false, none, true⟩),
          fun _ => .hard .transportError, 1⟩ ⟨["1", "2"], 0, []⟩).1
      = .error .transportError := by
  have hg := @getGamertagsModel_cooldown
    (fun _ => BulkCallResult.exn (BulkErrorResponse.apiException ⟨false, none, true⟩))
    (windowOf ⟨["1", "2"], 0, []⟩)
    (BulkErrorResponse.apiException ⟨false, none, true⟩) rfl (by decide)
  refine ⟨rfl, ?_, ?_⟩
  · intro st' h
    cases h
  · simp [runStep, hg]
    rfl

/-- Claim C7 (amended): in the fallback phase the coordinator attempts
identifiers sequentially from the current cursor while holding the
iteration's single permit; the cursor advances by one after each attempt
whose outcome is a success or a caught soft failure (content-type,
response-status or validation errors — logged and skipped); when no attempt
fails hard, the phase completes normally with the cursor advanced by
min(budget, remaining) — in particular an elapsed budget raises no timeout
error and the loop resumes the bulk phase at the advanced cursor.  An
attempt raising any other exception (e.g. a connection-level transport
error) instead aborts the entire call, without advancing the cursor for
that attempt; the permit is still released. -/
theorem C7_fallback_phase (env : StepEnv) (st : HandlerState) (b : Nat)
    (fb : String → FallbackResult) :
    ((∀ x ∈ (st.xuids.drop st.index).take b, ∀ e, fb x ≠ .hard e) →
      ∃ st', backupRun fb b st = .ok st'
        ∧ st'.index = st.index + min b (st.xuids.length - st.index)
        ∧ st'.xuids = st.xuids
        ∧ st'.responses = st.responses
            ++ ((st.xuids.drop st.index).take b).filterMap
                (fun x => fallbackResp (fb x)))
    ∧ (∀ st', backupRun fb b st = .ok st' →
        st.index ≤ st'.index ∧ st'.xuids = st.xuids)
    ∧ (∀ x xs e, st.xuids.drop st.index = x :: xs → fb x = .hard e →
        backupRun fb (b + 1) st = .error e)
    ∧ (∀ k, getGamertagsModel env.bulk (windowOf st) = .recoverable k →
        (∀ st', backupRun env.fallback env.budget st = .ok st' →
          (runStep env st).1 = .ok st')
        ∧ (∀ e, backupRun env.fallback env.budget st = .error e →
          (runStep env st).1 = .error e)
        ∧ (runStep env st).2 = [.acquire, .release]) := by
  refine ⟨backupRun_nohard fb b st, backupRun_mono fb b st, ?_, ?_⟩
  · intro x xs e hd hf
    exact backupRun_succ_cons_hard hd hf
  · intro k hg
    refine ⟨?_, ?_, by simp [runStep, hg]⟩
    · intro st' hb
      simp [runStep, hg, hb]
    · intro e hb
      simp [runStep, hg, hb]

/-- Witness for `C7_fallback_phase`: two identifiers remain and the budget
allows one soft-failing attempt — the cursor advances by exactly one; after
a throttled bulk call the step keeps its single acquire/release permit
trace. -/
theorem C7_fallback_phase_witness :
    (∃ st', backupRun (fun _ => FallbackResult.soft) 1 ⟨["1", "2"], 0, []⟩
        = .ok st'
      ∧ st'.index = 0 + min 1 (2 - 0))
    ∧ (runStep ⟨fun _ => .exn (.apiException ⟨false, none, true⟩),
          fun _ => FallbackResult.soft, 1⟩ ⟨["1", "2"], 0, []⟩).2
      = [.acquire, .release] := by
  have h := C7_fallback_phase
    ⟨fun _ => .exn (.apiException ⟨false, none, true⟩),
     fun _ => FallbackResult.soft, 1⟩
    ⟨["1", "2"], 0, []⟩ 1 (fun _ => FallbackResult.soft)
  have hg := @getGamertagsModel_cooldown
    (fun _ => BulkCallResult.exn (BulkErrorResponse.apiException ⟨false, none, true⟩))
    (windowOf ⟨["1", "2"], 0, []⟩)
    (BulkErrorResponse.apiException ⟨false, none, true⟩) rfl (by decide)
  obtain ⟨st', h1, h2, _, _⟩ := h.1 (by intro x hx e hc; cases hc)
  exact ⟨⟨st', h1, h2⟩, (h.2.2.2 .cooldown hg).2.2⟩

/-! ## Claim C8: device-hint extraction -/

theorem find?_first {α : Type} {p : α → Bool} :
    ∀ {l : List α} {a : α}, l.find? p = some a →
      ∃ pre post, l = pre ++ a :: post ∧ ∀ x ∈ pre, p x = false := by
  intro l
  induction l with
  | nil => intro a h; cases h
  | cons x xs ih =>
    intro a h
    cases hx : p x with
    | true =>
      rw [List.find?_cons, hx] at h
      cases h
      exact ⟨[], xs, rfl, by intro y hy; cases hy⟩
    | false =>
      rw [List.find?_cons, hx] at h
      obtain ⟨pre, post, rfl, hpre⟩ := ih h
      refine ⟨x :: pre, post, rfl, ?_⟩
      intro y hy
      rcases List.mem_cons.mp hy with rfl | hy'
      · exact hx
      · exact hpre y hy'

/-- Claim C8: a device hint is selected only for identifiers in
`gather_devices_for` with presence entries; the selection takes the first
allow-list primary entry, else the first heuristic primary entry (flagged as
the heuristic path, on which the audit notification carrying the entry's
title id and descriptor is emitted); when no entry qualifies the hint is
`none` — absent, not an empty value.  (The presence-entry shapes are
modelled from the spec, `common.xbox_api` not being among the sources.) -/
theorem C8_device_hint (gf : List String) (u : Person)
    (audit : String → String → Bool) (acc : FinishOut) :
    (u.xuid ∉ gf → deviceMatch gf u = none)
    ∧ (∀ p heur, deviceMatch gf u = some (p, heur) →
        u.xuid ∈ gf ∧ p ∈ u.presence_details ∧ p.is_primary = true
        ∧ (heur = false → allowQual p = true
            ∧ ∃ pre post, u.presence_details = pre ++ p :: post
                ∧ ∀ q ∈ pre, allowQual q = false)
        ∧ (heur = true → heurQual p = true
            ∧ (∀ q ∈ u.presence_details, allowQual q = false)
            ∧ ∃ pre post, u.presence_details = pre ++ p :: post
                ∧ ∀ q ∈ pre, heurQual q = false))
    ∧ ((∀ q ∈ u.presence_details, allowQual q = false ∧ heurQual q = false) →
        deviceMatch gf u = none)
    ∧ (∀ p, deviceMatch gf u = some (p, true) →
        audit p.title_id p.presence_text = true →
        ∃ out, processPeople audit gf [u] acc = .ok out
          ∧ out.audits = acc.audits ++ [(p.title_id, p.presence_text)])
    ∧ ((deviceMatch gf u = none ∨ ∃ p, deviceMatch gf u = some (p, false)) →
        ∃ out, processPeople audit gf [u] acc = .ok out
          ∧ out.audits = acc.audits) := by
  refine ⟨?_, ?_, ?_, ?_, ?_⟩
  · intro h
    simp only [deviceMatch]
    rw [if_neg (fun hc => h hc.1)]
  · intro p heur h
    simp only [deviceMatch] at h
    split at h
    case isFalse => cases h
    case isTrue hcond =>
      refine ⟨hcond.1, ?_⟩
      cases hfa : u.presence_details.find? allowQual with
      | some q =>
        rw [hfa] at h
        cases h
        have hq := List.find?_some hfa
        have hmem := List.mem_of_find?_eq_some hfa
        have hprim : p.is_primary = true := by
          have := hq
          simp only [allowQual, Bool.and_eq_true] at this
          exact this.2
        refine ⟨hmem, hprim, ?_, ?_⟩
        · intro _
          exact ⟨hq, find?_first hfa⟩
        · intro hcontra
          exact Bool.noConfusion hcontra
      | none =>
        rw [hfa] at h
        cases hfh : u.presence_details.find? heurQual with
        | none => rw [hfh] at h; cases h
        | some q =>
          rw [hfh] at h
          cases h
          have hq := List.find?_some hfh
          have hmem := List.mem_of_find?_eq_some hfh
          have hprim : p.is_primary = true := by
            have := hq
            simp only [heurQual, Bool.and_eq_true] at this
            exact this.2
          refine ⟨hmem, hprim, ?_, ?_⟩
          · intro hcontra
            exact Bool.noConfusion hcontra
          · intro _
            refine ⟨hq, ?_, find?_first hfh⟩
            intro q hqmem
            have := List.find?_eq_none.mp hfa q hqmem
            simpa using this
  · intro h
    simp only [deviceMatch]
    split
    case isFalse => rfl
    case isTrue hcond =>
      rw [List.find?_eq_none.mpr (fun q hq => by simp [(h q hq).1]),
        List.find?_eq_none.mpr (fun q hq => by simp [(h q hq).2])]
      rfl
  · intro p h haud
    simp only [processPeople, h]
    rw [if_pos haud]
    exact ⟨_, rfl, rfl⟩
  · intro h
    rcases h with h | ⟨p, h⟩
    · simp only [processPeople, h]
      exact ⟨_, rfl, rfl⟩
    · simp only [processPeople, h]
      exact ⟨_, rfl, rfl⟩

/-- Witness for `C8_device_hint`: an identifier outside the interest set
yields no hint, and its processing emits no audit notification. -/
theorem C8_device_hint_witness :
    deviceMatch [] ⟨"1", "GT", [⟨"1828326430", true, "Minecraft for Windows", "PC"⟩]⟩
      = none
    ∧ ∃ out, processPeople (fun _ _ => true) []
          [⟨"1", "GT", [⟨"1828326430", true, "Minecraft for Windows", "PC"⟩]⟩]
          ⟨[], [], []⟩ = .ok out
        ∧ out.audits = [] := by
  have h := C8_device_hint [] ⟨"1", "GT", [⟨"1828326430", true, "Minecraft for Windows", "PC"⟩]⟩
    (fun _ _ => true) ⟨[], [], []⟩
  have hnone := h.1 (by intro hc; cases hc)
  exact ⟨hnone, h.2.2.2.2 (Or.inl hnone)⟩

/-! ## Claims C9 and C10: cache write-back staging and the no-empties invariant -/

theorem handleNewGamertag_skip {pipe : List CacheOp} {xuid gamertag : String}
    {dict : List (String × GamertagInfo)} {device : Option String}
    (h : xuid = "" ∨ gamertag = "") :
    handleNewGamertag pipe xuid gamertag dict device = (pipe, dict) := by
  simp [handleNewGamertag, h]

theorem handleNewGamertag_stage {pipe : List CacheOp} {xuid gamertag : String}
    {dict : List (String × GamertagInfo)} {device : Option String}
    (h : ¬(xuid = "" ∨ gamertag = "")) :
    handleNewGamertag pipe xuid gamertag dict device
      = (pipe ++ pairOps (xuid, ⟨gamertag, device⟩),
         dictUpsert dict xuid ⟨gamertag, device⟩) := by
  simp only [handleNewGamertag, pairOps]
  rw [if_neg h]

theorem processPeople_cons_ok (audit : String → String → Bool)
    (gf : List String) (u : Person) (rest : List Person) (acc out : FinishOut)
    (h : processPeople audit gf (u :: rest) acc = .ok out) :
    ∃ acc', processPeople audit gf rest acc' = .ok out
      ∧ acc'.pipe = (handleNewGamertag acc.pipe u.xuid u.gamertag acc.dict
          ((deviceMatch gf u).map (fun q => q.1.device))).1
      ∧ acc'.dict = (handleNewGamertag acc.pipe u.xuid u.gamertag acc.dict
          ((deviceMatch gf u).map (fun q => q.1.device))).2 := by
  cases hm : deviceMatch gf u with
  | none =>
    simp only [processPeople, hm] at h
    exact ⟨_, h, by simp [hm], by simp [hm]⟩
  | some q =>
    obtain ⟨p0, heur⟩ := q
    cases heur with
    | false =>
      simp only [processPeople, hm] at h
      exact ⟨_, h, by simp [hm], by simp [hm]⟩
    | true =>
      simp only [processPeople, hm] at h
      split at h
      · exact ⟨_, h, by simp [hm], by simp [hm]⟩
      · cases h

theorem processPeople_ok (audit : String → String → Bool) (gf : List String) :
    ∀ (people : List Person) (acc out : FinishOut),
      processPeople audit gf people acc = .ok out →
      out.pipe = acc.pipe ++ (stagedPairsPeople gf people).flatMap pairOps
      ∧ out.dict = (stagedPairsPeople gf people).foldl
          (fun d q => dictUpsert d q.1 q.2) acc.dict := by
  intro people
  induction people with
  | nil =>
    intro acc out h
    cases h
    simp [stagedPairsPeople]
  | cons u rest ih =>
    intro acc out h
    obtain ⟨acc', h1, hp, hd⟩ := processPeople_cons_ok audit gf u rest acc out h
    obtain ⟨o1, o2⟩ := ih acc' out h1
    by_cases he : u.xuid = "" ∨ u.gamertag = ""
    · rw [handleNewGamertag_skip he] at hp hd
      constructor
      · rw [o1, hp]
        simp [stagedPairsPeople, he]
      · rw [o2, hd]
        simp [stagedPairsPeople, he]
    · rw [handleNewGamertag_stage he] at hp hd
      constructor
      · rw [o1, hp]
        simp [stagedPairsPeople, he, List.flatMap_cons, List.append_assoc]
      · rw [o2, hd]
        simp [stagedPairsPeople, he]

theorem processProfiles_spec :
    ∀ (users : List ProfileUser) (acc : FinishOut),
      (processProfiles users acc).pipe
          = acc.pipe ++ (stagedPairsProfiles users).flatMap pairOps
      ∧ (processProfiles users acc).dict
          = (stagedPairsProfiles users).foldl
              (fun d q => dictUpsert d q.1 q.2) acc.dict
      ∧ (processProfiles users acc).audits = acc.audits := by
  intro users
  induction users with
  | nil => intro acc; simp [processProfiles, stagedPairsProfiles]
  | cons u rest ih =>
    intro acc
    cases hf : u.settings.find? (fun s => s.id == "Gamertag") with
    | none =>
      obtain ⟨i1, i2, i3⟩ := ih acc
      simp only [processProfiles, hf]
      exact ⟨by rw [i1]; simp [stagedPairsProfiles, hf],
        by rw [i2]; simp [stagedPairsProfiles, hf], i3⟩
    | some s =>
      by_cases he : u.id = "" ∨ s.value = ""
      · simp only [processProfiles, hf, handleNewGamertag_skip he]
        obtain ⟨i1, i2, i3⟩ := ih acc
        refine ⟨?_, ?_, i3⟩
        · rw [i1]
          simp [stagedPairsProfiles, hf, he]
        · rw [i2]
          simp [stagedPairsProfiles, hf, he]
      · simp only [processProfiles, hf, handleNewGamertag_stage he]
        obtain ⟨i1, i2, i3⟩ := ih
          ⟨dictUpsert acc.dict u.id ⟨s.value, none⟩,
           acc.pipe ++ pairOps (u.id, ⟨s.value, none⟩), acc.audits⟩
        refine ⟨?_, ?_, i3⟩
        · rw [i1]
          simp [stagedPairsProfiles, hf, he, List.flatMap_cons, List.append_assoc]
        · rw [i2]
          simp [stagedPairsProfiles, hf, he]

theorem processResponses_ok (audit : String → String → Bool) (gf : List String) :
    ∀ (rs : List XResponse) (acc out : FinishOut),
      processResponses audit gf rs acc = .ok out →
      out.pipe = acc.pipe ++ (stagedPairs gf rs).flatMap pairOps
      ∧ out.dict = (stagedPairs gf rs).foldl
          (fun d q => dictUpsert d q.1 q.2) acc.dict := by
  intro rs
  induction rs with
  | nil =>
    intro acc out h
    cases h
    simp [stagedPairs]
  | cons r rest ih =>
    intro acc out h
    cases r with
    | peopleHub r =>
      simp only [processResponses] at h
      cases hp : processPeople audit gf r.people acc with
      | error e => rw [hp] at h; cases h
      | ok acc' =>
        rw [hp] at h
        obtain ⟨p1, p2⟩ := processPeople_ok audit gf r.people acc acc' hp
        obtain ⟨o1, o2⟩ := ih acc' out h
        constructor
        · rw [o1, p1]
          simp [stagedPairs, List.flatMap_append, List.append_assoc]
        · rw [o2, p2]
          simp [stagedPairs, List.foldl_append]
    | profile r =>
      simp only [processResponses] at h
      obtain ⟨p1, p2, _⟩ := processProfiles_spec r.profile_users acc
      obtain ⟨o1, o2⟩ := ih (processProfiles r.profile_users acc) out h
      constructor
      · rw [o1, p1]
        simp [stagedPairs, List.flatMap_append, List.append_assoc]
      · rw [o2, p2]
        simp [stagedPairs, List.foldl_append]

theorem foldl_dictUpsert_fresh {α : Type} :
    ∀ (l : List (String × α)) (d0 : List (String × α)),
      ((l.map (fun q => q.1)).Nodup) →
      (∀ q ∈ l, q.1 ∉ keysOf d0) →
      l.foldl (fun d q => dictUpsert d q.1 q.2) d0 = d0 ++ l := by
  intro l
  induction l with
  | nil => intro d0 _ _; simp
  | cons q rest ih =>
    intro d0 hnd hfresh
    simp only [List.map_cons, List.nodup_cons] at hnd
    rw [List.foldl_cons, dictUpsert_fresh (hfresh q (List.mem_cons_self _ _))]
    rw [ih (d0 ++ [(q.1, q.2)]) hnd.2 ?fresh]
    · simp
    case fresh =>
      intro t ht hc
      have hk : keysOf (d0 ++ [(q.1, q.2)]) = keysOf d0 ++ [q.1] := by
        simp [keysOf]
      rw [hk, List.mem_append] at hc
      rcases hc with hc | hc
      · exact hfresh t (List.mem_cons_of_mem _ ht) hc
      · simp only [List.mem_singleton] at hc
        exact hnd.1 (List.mem_map.mpr ⟨t, ht, hc⟩)

/-- Claim C9: after the loop completes without an unrecoverable error, each
recorded pair stages exactly one forward and one reverse set-with-TTL
operation, appended in order on the single pipeline, both carrying the one
fixed TTL; the pipeline is handed to a detached background dispatch while
the mapping itself is returned (the result does not wait on the pipeline);
and if processing raises before the dispatch is scheduled, nothing is
dispatched and the error propagates.  The duplicate-freeness hypothesis
makes "exactly one per resolved pair" precise: each pair of the returned
mapping appears once in the staged sequence. -/
theorem C9_writeback (env : Nat → StepEnv) (audit : String → String → Bool)
    (gf : List String) (fuel : Nat) (st st' : HandlerState)
    (hloop : runLoopFuel env 0 fuel st = some (.ok st'))
    (hnd : ((stagedPairs gf st'.responses).map (fun q => q.1)).Nodup) :
    (∀ out, processResponses audit gf st'.responses ⟨[], [], []⟩ = .ok out →
      runModel env audit gf fuel st = some ⟨.ok out.dict, out.pipe, out.audits⟩
      ∧ out.dict = stagedPairs gf st'.responses
      ∧ out.pipe = out.dict.flatMap pairOps
      ∧ ∀ op ∈ out.pipe, op.time = EXPIRE_GAMERTAGS_AT)
    ∧ (∀ e, processResponses audit gf st'.responses ⟨[], [], []⟩ = .error e →
      runModel env audit gf fuel st = some ⟨.error e, [], []⟩) := by
  constructor
  · intro out h
    obtain ⟨h1, h2⟩ := processResponses_ok audit gf st'.responses ⟨[], [], []⟩ out h
    have hdict : out.dict = stagedPairs gf st'.responses := by
      rw [h2]
      simpa using foldl_dictUpsert_fresh (stagedPairs gf st'.responses) [] hnd
        (by intro q _ hc; simp [keysOf] at hc)
    refine ⟨by simp [runModel, hloop, h], hdict, ?_, ?_⟩
    · rw [h1, hdict]
      simp
    · intro op hop
      rw [h1] at hop
      simp only [List.nil_append, List.mem_flatMap] at hop
      obtain ⟨q, _, hq⟩ := hop
      simp only [pairOps, List.mem_cons, List.mem_singleton] at hq
      rcases hq with rfl | rfl | hq
      · rfl
      · rfl
      · cases hq
  · intro e h
    simp [runModel, hloop, h]

/-- Witness for `C9_writeback`: a one-identifier run that resolves "1" to
"GT" stages exactly its forward and reverse `setex` and returns the mapping
with the pipeline dispatched. -/
theorem C9_writeback_witness :
    runModel (fun _ => ⟨fun _ => .ok ⟨[⟨"1", "GT", []⟩]⟩, fun _ => .soft, 0⟩)
        (fun _ _ => true) [] 2 ⟨["1"], 0, []⟩
      = some ⟨.ok [("1", ⟨"GT", none⟩)],
          [⟨"1", EXPIRE_GAMERTAGS_AT, "GT"⟩, ⟨"rpl-" ++ "GT", EXPIRE_GAMERTAGS_AT, "1"⟩],
          []⟩ := by
  have hg : getGamertagsModel (fun _ => .ok (⟨[⟨"1", "GT", []⟩]⟩ : PeopleHubResponse))
      (windowOf ⟨["1"], 0, []⟩) = .success ⟨[⟨"1", "GT", []⟩]⟩ :=
    @getGamertagsModel_ok (fun _ => BulkCallResult.ok ⟨[⟨"1", "GT", []⟩]⟩)
      (windowOf ⟨["1"], 0, []⟩) ⟨[⟨"1", "GT", []⟩]⟩ rfl
  have hloop : runLoopFuel
      (fun _ => ⟨fun _ => .ok ⟨[⟨"1", "GT", []⟩]⟩, fun _ => .soft, 0⟩) 0 2
      ⟨["1"], 0, []⟩
      = some (.ok ⟨["1"], 500, [.peopleHub ⟨[⟨"1", "GT", []⟩]⟩]⟩) := by
    simp only [runLoopFuel]
    rw [if_pos (by decide)]
    simp only [runStep, hg]
    rw [if_neg (by decide)]
    rfl
  have hproc : processResponses (fun _ _ => true) []
      [XResponse.peopleHub ⟨[⟨"1", "GT", []⟩]⟩] ⟨[], [], []⟩
      = .ok ⟨[("1", ⟨"GT", none⟩)],
          [⟨"1", EXPIRE_GAMERTAGS_AT, "GT"⟩, ⟨"rpl-" ++ "GT", EXPIRE_GAMERTAGS_AT, "1"⟩],
          []⟩ := by
    rfl
  have h := (C9_writeback
    (fun _ => ⟨fun _ => .ok ⟨[⟨"1", "GT", []⟩]⟩, fun _ => .soft, 0⟩)
    (fun _ _ => true) [] 2 ⟨["1"], 0, []⟩
    ⟨["1"], 500, [.peopleHub ⟨[⟨"1", "GT", []⟩]⟩]⟩ hloop (by decide)).1 _ hproc
  exact h.1

/-- Claim C10: the result-recording helper drops empty identifiers and empty
names without staging anything, and consequently neither the mapping
produced by the response-processing phase nor any staged cache key or value
is ever the empty string (the reverse key is nonempty by its prefix). -/
theorem C10_no_empty (pipe : List CacheOp) (xuid gamertag : String)
    (dict : List (String × GamertagInfo)) (device : Option String) :
    ((xuid = "" ∨ gamertag = "") →
      handleNewGamertag pipe xuid gamertag dict device = (pipe, dict))
    ∧ (∀ (audit : String → String → Bool) (gf : List String)
        (rs : List XResponse) (out : FinishOut),
        processResponses audit gf rs ⟨[], [], []⟩ = .ok out →
        (∀ q ∈ out.dict, q.1 ≠ "" ∧ q.2.gamertag ≠ "")
        ∧ (∀ op ∈ out.pipe, op.name ≠ "" ∧ op.value ≠ "")) := by
  have people_ok : ∀ (gf : List String) (people : List Person),
      ∀ q ∈ stagedPairsPeople gf people, q.1 ≠ "" ∧ q.2.gamertag ≠ "" := by
    intro gf people
    induction people with
    | nil => intro q hq; cases hq
    | cons u us ihu =>
      intro q hq
      simp only [stagedPairsPeople, List.mem_append] at hq
      rcases hq with hq | hq
      · by_cases he : u.xuid = "" ∨ u.gamertag = ""
        · rw [if_pos he] at hq
          cases hq
        · rw [if_neg he] at hq
          simp only [List.mem_singleton] at hq
          subst hq
          push_neg at he
          exact he
      · exact ihu q hq
  have profiles_ok : ∀ (users : List ProfileUser),
      ∀ q ∈ stagedPairsProfiles users, q.1 ≠ "" ∧ q.2.gamertag ≠ "" := by
    intro users
    induction users with
    | nil => intro q hq; cases hq
    | cons u us ihu =>
      intro q hq
      simp only [stagedPairsProfiles, List.mem_append] at hq
      rcases hq with hq | hq
      · split at hq
        · cases hq
        · split at hq
          · cases hq
          · rename_i he
            simp only [List.mem_singleton] at hq
            subst hq
            push_neg at he
            exact he
      · exact ihu q hq
  have staged_ok : ∀ (gf : List String) (rs : List XResponse),
      ∀ q ∈ stagedPairs gf rs, q.1 ≠ "" ∧ q.2.gamertag ≠ "" := by
    intro gf rs
    induction rs with
    | nil => intro q hq; cases hq
    | cons r rest ih =>
      cases r with
      | peopleHub r =>
        intro q hq
        simp only [stagedPairs, List.mem_append] at hq
        rcases hq with hq | hq
        · exact people_ok gf r.people q hq
        · exact ih q hq
      | profile r =>
        intro q hq
        simp only [stagedPairs, List.mem_append] at hq
        rcases hq with hq | hq
        · exact profiles_ok r.profile_users q hq
        · exact ih q hq
  have mem_foldl : ∀ (l : List (String × GamertagInfo))
      (d0 : List (String × GamertagInfo)) (q : String × GamertagInfo),
      q ∈ l.foldl (fun d p => dictUpsert d p.1 p.2) d0 →
      q ∈ d0 ∨ ∃ p ∈ l, q = (p.1, p.2) := by
    intro l
    induction l with
    | nil => intro d0 q hq; exact Or.inl hq
    | cons p rest ih =>
      intro d0 q hq
      rw [List.foldl_cons] at hq
      rcases ih (dictUpsert d0 p.1 p.2) q hq with hq' | ⟨p', hp', rfl⟩
      · unfold dictUpsert at hq'
        split at hq'
        · obtain ⟨t, ht, rfl⟩ := List.mem_map.mp hq'
          by_cases htp : t.1 = p.1
          · simp only [htp, if_pos rfl]
            exact Or.inr ⟨p, List.mem_cons_self _ _, by simp [htp]⟩
          · rw [if_neg (by simpa using htp)]
            exact Or.inl ht
        · rcases List.mem_append.mp hq' with ht | ht
          · exact Or.inl ht
          · simp only [List.mem_singleton] at ht
            exact Or.inr ⟨p, List.mem_cons_self _ _, ht⟩
      · exact Or.inr ⟨p', List.mem_cons_of_mem _ hp', rfl⟩
  refine ⟨fun h => handleNewGamertag_skip h, ?_⟩
  intro audit gf rs out h
  obtain ⟨h1, h2⟩ := processResponses_ok audit gf rs ⟨[], [], []⟩ out h
  constructor
  · intro q hq
    rw [h2] at hq
    rcases mem_foldl _ _ q hq with hq' | ⟨p, hp, rfl⟩
    · cases hq'
    · exact staged_ok gf rs p hp
  · intro op hop
    rw [h1] at hop
    simp only [List.nil_append, List.mem_flatMap] at hop
    obtain ⟨q, hq, hopq⟩ := hop
    obtain ⟨hq1, hq2⟩ := staged_ok gf rs q hq
    simp only [pairOps, List.mem_cons, List.mem_singleton] at hopq
    have hrpl : ("rpl-" ++ q.2.gamertag) ≠ "" := by
      intro hc
      have hlen := congrArg String.length hc
      rw [String.length_append] at hlen
      have h4 : ("rpl-" : String).length = 4 := rfl
      have h0 : ("" : String).length = 0 := rfl
      omega
    rcases hopq with rfl | rfl | hopq
    · exact ⟨hq1, hq2⟩
    · exact ⟨hrpl, hq1⟩
    · cases hopq

/-- Witness for `C10_no_empty`: an empty identifier stages nothing, and a
concrete successful processing run yields no empty keys or values. -/
theorem C10_no_empty_witness :
    handleNewGamertag [] "" "GT" [] none = ([], []) :=
  (C10_no_empty [] "" "GT" [] none).1 (Or.inl rfl)
